/-
  Verification of the ant-colony TSP optimizer
  (sources: advanced_aco.py, tsp_aco.py).

  Shallow embedding conventions:
  * City indices are natural numbers; a tour is a `List ℕ`.
  * The precomputed distance matrix `self.distances` is modelled as a
    function `d : ℕ → ℕ → ℚ`; Python floats are idealized as exact
    rationals.  All code downstream of `_calculate_distances` reads only
    this matrix, so the claims are stated for an arbitrary matrix.
  * The pheromone matrix is likewise a function `ℕ → ℕ → ℚ`.
  * Randomness: both seeded generators (`random`, `np.random`) are
    modelled as one stream `g : ℕ → ℚ` of draws in `[0,1)`, consumed at
    an index threaded through the run state; a seed determines the
    stream.
  * Fallible Python code (exceptions such as the `ValueError` raised by
    `np.random.choice` on a NaN probability vector, or the
    `ZeroDivisionError` in `AdvancedACO.__init__`) is modelled with
    `Option`, `none` standing for the raised exception.
-/
import Mathlib

namespace ACO

/-! ### Tour length (`_calculate_path_distance`, advanced_aco.py:151-157,
tsp_aco.py:78-85) -/

/-- Distance between two optional endpoints; `0` when either is absent
(the absent case corresponds to an empty list, which the Python code
never passes here). -/
def edgeQ (d : ℕ → ℕ → ℚ) : Option ℕ → Option ℕ → ℚ
  | some a, some b => d a b
  | _, _ => 0

/-- Sum of the consecutive-edge distances of a path: the loop
`for i in range(len(path) - 1): distance += self.distances[path[i], path[i+1]]`. -/
def pathSum (d : ℕ → ℕ → ℚ) : List ℕ → ℚ
  | [] => 0
  | [_] => 0
  | a :: b :: t => d a b + pathSum d (b :: t)

/-- The closing edge `self.distances[path[-1], path[0]]`. -/
def closeEdge (d : ℕ → ℕ → ℚ) (p : List ℕ) : ℚ :=
  edgeQ d p.getLast? p.head?

/-- `_calculate_path_distance`: consecutive edges plus the closing edge. -/
def tourLen (d : ℕ → ℕ → ℚ) (p : List ℕ) : ℚ :=
  pathSum d p + closeEdge d p

/-! ### Symmetric pheromone deposits

Each update loop walks the consecutive edges of a path and adds an
amount at `[i,j]` and `[j,i]`, then does the same for the closing edge.
We represent the traversed directed edges as a list and count them. -/

/-- The directed edges traversed by the deposit loops: consecutive pairs
plus the closing pair `(path[-1], path[0])`. -/
def tourEdges (p : List ℕ) : List (ℕ × ℕ) :=
  p.zip p.tail ++ (match p.getLast?, p.head? with
    | some a, some b => [(a, b)]
    | _, _ => [])

/-- How many times the matrix cell `(a,b)` receives the per-edge amount:
once for each traversal of `(a,b)` as an edge and once for each
traversal of `(b,a)` (the loops write both `[i,j]` and `[j,i]`). -/
def edgeCount (p : List ℕ) (a b : ℕ) : ℕ :=
  (tourEdges p).count (a, b) + (tourEdges p).count (b, a)

/-- Deposit `amt` on every traversed edge of `p`, in both directions. -/
def depositEdges (ph : ℕ → ℕ → ℚ) (p : List ℕ) (amt : ℚ) : ℕ → ℕ → ℚ :=
  fun a b => ph a b + amt * (edgeCount p a b : ℚ)

/-- `self.pheromones *= (1 - self.evaporation_rate)`. -/
def evap (ph : ℕ → ℕ → ℚ) (rho : ℚ) : ℕ → ℕ → ℚ :=
  fun a b => (1 - rho) * ph a b

/-- `np.clip(x, lo, hi) = min(hi, max(lo, x))` (lower bound applied
first). -/
def npClip (lo hi x : ℚ) : ℚ := min hi (max lo x)

/-! ### City selection (`_select_next_city_as`, advanced_aco.py:188-204;
`_select_next_city`, tsp_aco.py:87-106 — the two bodies are identical) -/

/-- `1.0 / distances[cur, c] if distances[cur, c] > 0 else 0`. -/
def heurVal (d : ℕ → ℕ → ℚ) (cur c : ℕ) : ℚ :=
  if 0 < d cur c then 1 / d cur c else 0

/-- Desirability score of each unvisited candidate:
`pheromone^alpha * heuristic^beta`.  The exponents are modelled as
naturals (the repository always uses integral `alpha`, `beta`). -/
def scoreList (ph d : ℕ → ℕ → ℚ) (alpha beta : ℕ) (cur : ℕ)
    (uv : List ℕ) : List ℚ :=
  uv.map fun c => ph cur c ^ alpha * heurVal d cur c ^ beta

/-- Inverse-cdf sampling used to model `np.random.choice(len, p=probs)`
with a draw `r ∈ [0,1)`: the first index whose cumulative probability
exceeds `r` (falling back to the last index). -/
def sampleIdx : List ℚ → ℚ → ℕ
  | [], _ => 0
  | [_], _ => 0
  | x :: y :: t, r => if r < x then 0 else sampleIdx (y :: t) (r - x) + 1

/-- `_select_next_city_as`: normalize scores and sample.  When the score
sum is zero the Python code divides by zero, producing a NaN probability
vector on which `np.random.choice` raises `ValueError`; this is the
`none` branch. -/
def selectNextCityAS (ph d : ℕ → ℕ → ℚ) (alpha beta : ℕ) (cur : ℕ)
    (uv : List ℕ) (r : ℚ) : Option ℕ :=
  let scores := scoreList ph d alpha beta cur uv
  let s := scores.sum
  if s = 0 then none
  else some (uv.getD (sampleIdx (scores.map (· / s)) r) 0)

/-- First index of a maximal element (`np.argmax`). -/
def argmaxAux : List ℚ → ℕ → ℚ → ℕ → ℕ
  | [], bi, _, _ => bi
  | v :: vs, bi, bv, pos =>
      if bv < v then argmaxAux vs pos v (pos + 1)
      else argmaxAux vs bi bv (pos + 1)

/-- `np.argmax` over a score list (first maximal index; `0` on `[]`). -/
def argmaxIdx : List ℚ → ℕ
  | [] => 0
  | v :: vs => argmaxAux vs 0 v 1

/-- `_select_next_city_acs` (advanced_aco.py:206-223): with probability
`q0` exploit the best-scoring candidate, otherwise fall back to the
probabilistic rule.  `rq` is the draw for the `q0` test, `rx` the draw
used by the exploration branch. -/
def selectNextCityACS (ph d : ℕ → ℕ → ℚ) (alpha beta : ℕ) (q0 : ℚ)
    (cur : ℕ) (uv : List ℕ) (rq rx : ℚ) : Option ℕ :=
  if rq < q0 then
    some (uv.getD (argmaxIdx (scoreList ph d alpha beta cur uv)) 0)
  else selectNextCityAS ph d alpha beta cur uv rx

/-- `_local_pheromone_update_acs` (advanced_aco.py:225-232): blends the
edge `(i,j)` (both directions) toward `tau0`. -/
def localUpdateACS (ph : ℕ → ℕ → ℚ) (rho tau0 : ℚ) (i j : ℕ) :
    ℕ → ℕ → ℚ :=
  fun a b =>
    if (a = i ∧ b = j) ∨ (a = j ∧ b = i) then
      (1 - rho) * ph i j + rho * tau0
    else ph a b

/-! ### Nearest-neighbour estimate (`_nearest_neighbor_heuristic`,
advanced_aco.py:136-149) -/

/-- `min(unvisited, key=...)`: first element of the list attaining the
minimal distance from `cur` (CPython's small-int set iterates in
ascending order, which the ascending `unvisited` list reproduces). -/
def argminD (d : ℕ → ℕ → ℚ) (cur : ℕ) : List ℕ → ℕ
  | [] => 0
  | x :: xs => xs.foldl (fun b u => if d cur u < d cur b then u else b) x

/-- The greedy loop of `_nearest_neighbor_heuristic`; `fuel` is the
number of remaining steps (called with `fuel = unvisited.length`).
When the unvisited set is exhausted the closing edge back to city `0`
is added. -/
def nnAux (d : ℕ → ℕ → ℚ) : ℕ → ℕ → List ℕ → ℚ
  | _, cur, [] => d cur 0
  | 0, cur, _ :: _ => d cur 0
  | fuel + 1, cur, u :: us =>
      let nearest := argminD d cur (u :: us)
      d cur nearest + nnAux d fuel nearest ((u :: us).erase nearest)

/-- `_nearest_neighbor_heuristic()`: greedy nearest-neighbour tour
length starting at city 0. -/
def nnEstimate (d : ℕ → ℕ → ℚ) (n : ℕ) : ℚ :=
  nnAux d (n - 1) 0 (List.range' 1 (n - 1))

/-! ### 2-opt local search (`_two_opt`, advanced_aco.py:159-186) -/

/-- `best_path[:i] + best_path[i:j+1][::-1] + best_path[j+1:]`. -/
def twoOptSwap (p : List ℕ) (i j : ℕ) : List ℕ :=
  p.take i ++ ((p.drop i).take (j + 1 - i)).reverse ++ p.drop (j + 1)

/-- The scan order of the double loop:
`i` in `range(1, len(path)-1)`, `j` in `range(i+1, len(path))`. -/
def scanPairs (m : ℕ) : List (ℕ × ℕ) :=
  (List.range' 1 (m - 2)).flatMap fun i =>
    (List.range' (i + 1) (m - (i + 1))).map fun j => (i, j)

/-- One pass of the scan: the FIRST candidate (in scan order) strictly
shorter than the current best, if any. -/
def firstImprove (d : ℕ → ℕ → ℚ) (p : List ℕ) : Option (List ℕ) :=
  (scanPairs p.length).findSome? fun ij =>
    let q := twoOptSwap p ij.1 ij.2
    if tourLen d q < tourLen d p then some q else none

/-- The `while improved` loop with explicit fuel; each accepted move
restarts the scan from the improved path. -/
def twoOptLoop (d : ℕ → ℕ → ℚ) : ℕ → List ℕ → List ℕ
  | 0, p => p
  | fuel + 1, p =>
      match firstImprove d p with
      | none => p
      | some q => twoOptLoop d fuel q

/-- `_two_opt`.  Each accepted move strictly decreases the tour length,
and every intermediate path is a permutation of the input, so the loop
performs fewer than `p.permutations.length` accepted moves; with that
much fuel the loop provably reaches a fixpoint (`twoOpt_fixpoint`
below), so this equals the unbounded Python `while` loop. -/
def twoOpt (d : ℕ → ℕ → ℚ) (p : List ℕ) : List ℕ :=
  twoOptLoop d (p.permutations.length + 1) p

/-! ### Ranking (`np.argsort` in `_update_pheromones_rank`) -/

/-- Insert an index into a key-sorted list of indices. -/
def insertByKey (key : ℕ → ℚ) (i : ℕ) : List ℕ → List ℕ
  | [] => [i]
  | j :: rest =>
      if key i ≤ key j then i :: j :: rest else j :: insertByKey key i rest

/-- Sort a list of indices ascending by key (models `np.argsort`; the
tie order of `np.argsort`'s introsort is unspecified, and no claim
depends on it). -/
def sortByKey (key : ℕ → ℚ) : List ℕ → List ℕ
  | [] => []
  | i :: rest => insertByKey key i (sortByKey key rest)

/-- `ranked_indices = np.argsort(all_distances)`. -/
def rankIndices (ds : List ℚ) : List ℕ :=
  sortByKey (fun i => ds.getD i 0) (List.range ds.length)

/-! ### The four global pheromone updates (advanced_aco.py:261-346,
tsp_aco.py:125-138) -/

/-- `_update_pheromones_as` (and the basic `_update_pheromones` of
tsp_aco.py with `pheromone_deposit = q`): evaporate, then every ant's
tour deposits `q / distance` on each traversed edge, both directions,
closing edge included. -/
def updateAS (ph : ℕ → ℕ → ℚ) (rho q : ℚ) (ps : List (List ℕ))
    (ds : List ℚ) : ℕ → ℕ → ℚ :=
  (ps.zip ds).foldl (fun m pd => depositEdges m pd.1 (q / pd.2)) (evap ph rho)

/-- `_update_pheromones_acs`: evaporate, then only the global best tour
deposits, scaled by the evaporation rate. -/
def updateACS (ph : ℕ → ℕ → ℚ) (rho : ℚ) (bp : List ℕ) (bd : ℚ) :
    ℕ → ℕ → ℚ :=
  depositEdges (evap ph rho) bp (rho * (1 / bd))

/-- `_update_pheromones_mmas`: evaporate, deposit `1/dist` from the
chosen tour (iteration best or global best — the caller chooses), then
clamp every entry to `[tauMin, tauMax]` with `np.clip`. -/
def updateMMAS (ph : ℕ → ℕ → ℚ) (rho : ℚ) (p : List ℕ) (dist : ℚ)
    (tmin tmax : ℚ) : ℕ → ℕ → ℚ :=
  fun a b => npClip tmin tmax (depositEdges (evap ph rho) p (1 / dist) a b)

/-- `_update_pheromones_rank`: evaporate; the top `nElite` ranked tours
deposit `(nElite - rank) / distance`; then the global best-so-far tour
deposits `eliteWeight / bestDist`. -/
def updateRank (ph : ℕ → ℕ → ℚ) (rho : ℚ) (ps : List (List ℕ))
    (ds : List ℚ) (bp : List ℕ) (bd eliteWeight : ℚ) (nElite : ℕ) :
    ℕ → ℕ → ℚ :=
  let ranked := rankIndices ds
  let afterElites :=
    ((ranked.take nElite).enum).foldl
      (fun m ri =>
        depositEdges m (ps.getD ri.2 [])
          (((nElite - ri.1 : ℕ) : ℚ) / ds.getD ri.2 0))
      (evap ph rho)
  depositEdges afterElites bp (eliteWeight / bd)

/-! ### Run state and configuration (`AdvancedACO.__init__`,
advanced_aco.py:23-122) -/

/-- `ACOVariant`. -/
inductive Variant
  | AS | ACS | MMAS | RANK
deriving DecidableEq

/-- The constructor parameters of `AdvancedACO`. -/
structure ACOConfig where
  variant : Variant
  nAnts : ℕ
  nIters : ℕ
  alpha : ℕ
  beta : ℕ
  rho : ℚ
  q0 : ℚ
  tauMinOpt : Option ℚ
  tauMaxOpt : Option ℚ
  eliteWeight : ℚ
  nElite : ℕ
  localSearch : Bool
deriving DecidableEq

/-- One entry of `self.history` (advanced_aco.py:406-414). -/
structure RoundRecord where
  iteration : ℕ
  bestDistance : Option ℚ
  iterationBest : Option ℚ
  avgDistance : ℚ
  minPheromone : ℚ
  maxPheromone : ℚ
  bestPath : Option (List ℕ)
deriving DecidableEq

/-- The mutable state of one `AdvancedACO` instance.  `none` for a best
distance stands for `float('inf')`, `none` for a best path for `None`. -/
structure ACOState where
  nCities : ℕ
  distances : ℕ → ℕ → ℚ
  cfg : ACOConfig
  pheromones : ℕ → ℕ → ℚ
  tauMin : Option ℚ
  tauMax : Option ℚ
  bestPath : Option (List ℕ)
  bestDistance : Option ℚ
  iterationBestPath : Option (List ℕ)
  iterationBestDistance : Option ℚ
  history : List RoundRecord
  currentIteration : ℕ
  rngIdx : ℕ

/-- `AdvancedACO.__init__` after the distance matrix is computed.
`initial_pheromone = 1.0 / (n * nn)` raises `ZeroDivisionError` when
the denominator is zero (e.g. a single city), hence the `none` branch;
no other statement of the constructor can fail — in particular there is
no input validation.  MMAS resolves its pheromone bounds here
(advanced_aco.py:101-108). -/
def advInitState (n : ℕ) (d : ℕ → ℕ → ℚ) (cfg : ACOConfig) :
    Option ACOState :=
  let nn := nnEstimate d n
  if (n : ℚ) * nn = 0 then none
  else
    let tb : Option ℚ × Option ℚ :=
      if cfg.variant = Variant.MMAS then
        let tmax := cfg.tauMaxOpt.getD (1 / (cfg.rho * nn))
        let tmin := cfg.tauMinOpt.getD (tmax / (2 * n))
        (some tmin, some tmax)
      else (cfg.tauMinOpt, cfg.tauMaxOpt)
    some
      { nCities := n
        distances := d
        cfg := cfg
        pheromones := fun _ _ => 1 / ((n : ℚ) * nn)
        tauMin := tb.1
        tauMax := tb.2
        bestPath := none
        bestDistance := none
        iterationBestPath := none
        iterationBestDistance := none
        history := []
        currentIteration := 0
        rngIdx := 0 }

/-- State of the basic `AntColonyTSP` (tsp_aco.py) after construction. -/
structure TSPState where
  nCities : ℕ
  distances : ℕ → ℕ → ℚ
  pheromones : ℕ → ℕ → ℚ
  bestPath : Option (List ℕ)
  bestDistance : Option ℚ

/-- `AntColonyTSP.__init__` (tsp_aco.py:42-64) after the distance
matrix is computed: a total function — the constructor performs no
input validation and none of its statements can raise, for any city
collection (including fewer than 2 cities); the pheromone matrix is
initialized uniformly to the literal `0.1`. -/
def tspInitState (n : ℕ) (d : ℕ → ℕ → ℚ) : TSPState :=
  { nCities := n
    distances := d
    pheromones := fun _ _ => 1 / 10
    bestPath := none
    bestDistance := none }

/-! ### Tour construction (`_construct_solution`,
advanced_aco.py:234-259) -/

/-- `random.randint(0, n - 1)` from a draw `r ∈ [0,1)`. -/
def drawNat (r : ℚ) (n : ℕ) : ℕ :=
  min (Int.toNat ⌊r * n⌋) (n - 1)

/-- The `while unvisited` loop of `_construct_solution`.  Arguments:
draw stream `g`, parameters, remaining fuel (the number of cities still
to visit), current pheromone matrix (mutated mid-construction only by
the ACS variant), next draw index, reversed path built so far (head =
current city), unvisited list.  Returns the completed path, the
pheromone matrix and the next draw index, or `none` if a selection
raised. -/
def constructAux (g : ℕ → ℚ) (d : ℕ → ℕ → ℚ) (cfg : ACOConfig)
    (tau0 : ℚ) :
    ℕ → (ℕ → ℕ → ℚ) → ℕ → List ℕ → List ℕ →
    Option (List ℕ × (ℕ → ℕ → ℚ) × ℕ)
  | _, ph, idx, acc, [] => some (acc.reverse, ph, idx)
  | 0, _, _, _, _ :: _ => none
  | fuel + 1, ph, idx, acc, u :: us =>
      let cur := acc.headD 0
      let step : Option (ℕ × (ℕ → ℕ → ℚ) × ℕ) :=
        if cfg.variant = Variant.ACS then
          match selectNextCityACS ph d cfg.alpha cfg.beta cfg.q0 cur
              (u :: us) (g idx) (g (idx + 1)) with
          | none => none
          | some next =>
              let idx' := if g idx < cfg.q0 then idx + 1 else idx + 2
              some (next, localUpdateACS ph cfg.rho tau0 cur next, idx')
        else
          match selectNextCityAS ph d cfg.alpha cfg.beta cur (u :: us)
              (g idx) with
          | none => none
          | some next => some (next, ph, idx + 1)
      match step with
      | none => none
      | some (next, ph', idx') =>
          constructAux g d cfg tau0 fuel ph' idx' (next :: acc)
            ((u :: us).erase next)

/-- `_construct_solution`: random start city, greedy stochastic
completion, optional 2-opt refinement. -/
def constructSolution (g : ℕ → ℚ) (s : ACOState) :
    Option (List ℕ × (ℕ → ℕ → ℚ) × ℕ) :=
  let start := drawNat (g s.rngIdx) s.nCities
  let uv := (List.range s.nCities).erase start
  let tau0 := 1 / ((s.nCities : ℚ) * nnEstimate s.distances s.nCities)
  match constructAux g s.distances s.cfg tau0 uv.length s.pheromones
      (s.rngIdx + 1) [start] uv with
  | none => none
  | some (path, ph', idx') =>
      let path' := if s.cfg.localSearch then twoOpt s.distances path
        else path
      some (path', ph', idx')

/-- `dist < best` where `best` may be `float('inf')`. -/
def ltOpt (q : ℚ) : Option ℚ → Bool
  | none => true
  | some b => q < b

/-- The per-ant best-tracking block (advanced_aco.py:388-396). -/
def updateBests (s : ACOState) (path : List ℕ) (dist : ℚ) : ACOState :=
  let s1 :=
    if ltOpt dist s.iterationBestDistance then
      { s with iterationBestDistance := some dist
               iterationBestPath := some path }
    else s
  if ltOpt dist s1.bestDistance then
    { s1 with bestDistance := some dist, bestPath := some path }
  else s1

/-- The `for ant in range(self.n_ants)` loop: construct one tour per
ant, accumulating all paths and distances in order. -/
def antLoop (g : ℕ → ℚ) :
    ℕ → ACOState → List (List ℕ) → List ℚ →
    Option (ACOState × List (List ℕ) × List ℚ)
  | 0, s, ps, ds => some (s, ps, ds)
  | k + 1, s, ps, ds =>
      match constructSolution g s with
      | none => none
      | some (path, ph', idx') =>
          let dist := tourLen s.distances path
          let s1 := { s with pheromones := ph', rngIdx := idx' }
          let s2 := updateBests s1 path dist
          antLoop g k s2 (ps ++ [path]) (ds ++ [dist])

/-- `_update_pheromones` (advanced_aco.py:348-357): dispatch on the
variant.  When the best path is still `None` the Python code would
raise; the `getD` defaults are unreachable for `n_ants ≥ 1`. -/
def updateDispatch (s : ACOState) (ps : List (List ℕ)) (ds : List ℚ) :
    ℕ → ℕ → ℚ :=
  match s.cfg.variant with
  | Variant.AS => updateAS s.pheromones s.cfg.rho 1 ps ds
  | Variant.ACS =>
      updateACS s.pheromones s.cfg.rho (s.bestPath.getD [])
        (s.bestDistance.getD 0)
  | Variant.MMAS =>
      let src : List ℕ × ℚ :=
        if s.currentIteration < s.cfg.nIters / 2 then
          (s.iterationBestPath.getD [], s.iterationBestDistance.getD 0)
        else (s.bestPath.getD [], s.bestDistance.getD 0)
      updateMMAS s.pheromones s.cfg.rho src.1 src.2 (s.tauMin.getD 0)
        (s.tauMax.getD 0)
  | Variant.RANK =>
      updateRank s.pheromones s.cfg.rho ps ds (s.bestPath.getD [])
        (s.bestDistance.getD 0) s.cfg.eliteWeight s.cfg.nElite

/-- All matrix entries, row-major over `range n × range n`. -/
def matrixEntries (ph : ℕ → ℕ → ℚ) (n : ℕ) : List ℚ :=
  (List.range n).flatMap fun i => (List.range n).map fun j => ph i j

/-- `np.min` of a list (`0` on empty; `np.min` of an empty selection
raises, which cannot happen while pheromone entries stay positive). -/
def listMin : List ℚ → ℚ
  | [] => 0
  | x :: xs => xs.foldl min x

/-- `np.max` of a list (`0` on empty). -/
def listMax : List ℚ → ℚ
  | [] => 0
  | x :: xs => xs.foldl max x

/-- One iteration of `solve` (advanced_aco.py:370-424): reset the
iteration best, run all ants, apply the variant update, append the
iteration record.  The external callback and the verbose print are
transport concerns and have no effect on the state. -/
def roundStep (g : ℕ → ℚ) (iter : ℕ) (s : ACOState) : Option ACOState :=
  let s0 := { s with currentIteration := iter
                     iterationBestDistance := none
                     iterationBestPath := none }
  match antLoop g s.cfg.nAnts s0 [] [] with
  | none => none
  | some (s1, ps, ds) =>
      let ph' := updateDispatch s1 ps ds
      let s2 := { s1 with pheromones := ph' }
      let entries := matrixEntries s2.pheromones s2.nCities
      let record : RoundRecord :=
        { iteration := iter
          bestDistance := s2.bestDistance
          iterationBest := s2.iterationBestDistance
          avgDistance := ds.sum / (ds.length : ℚ)
          minPheromone := listMin (entries.filter fun x => 0 < x)
          maxPheromone := listMax entries
          bestPath := s2.bestPath }
      some { s2 with history := s2.history ++ [record] }

/-- The round loop of `solve`, rounds `iter, iter+1, …`. -/
def roundsLoop (g : ℕ → ℚ) : ℕ → ℕ → ACOState → Option ACOState
  | 0, _, s => some s
  | k + 1, iter, s =>
      match roundStep g iter s with
      | none => none
      | some s' => roundsLoop g k (iter + 1) s'

/-- A full run: construct the optimizer and run `solve`.  The result is
the final state (from which `solve`'s return value
`(best_path, best_distance)` and the history are projections). -/
def solveAdv (n : ℕ) (d : ℕ → ℕ → ℚ) (cfg : ACOConfig) (g : ℕ → ℚ) :
    Option ACOState :=
  match advInitState n d cfg with
  | none => none
  | some s0 => roundsLoop g cfg.nIters 0 s0

/-- The recorded history of a run (`[]` if construction or a selection
raised). -/
def solveHist (n : ℕ) (d : ℕ → ℕ → ℚ) (cfg : ACOConfig) (g : ℕ → ℚ) :
    List RoundRecord :=
  ((solveAdv n d cfg g).map ACOState.history).getD []

/-- Order on best distances with `none = float('inf')` as top. -/
def leOpt : Option ℚ → Option ℚ → Prop
  | _, none => True
  | none, some _ => False
  | some a, some b => a ≤ b

/- The arithmetic of `ℚ` is `@[irreducible]` by default; witnesses
evaluate the model on concrete inputs by kernel reduction, which needs
these operations unfolded. -/
attribute [local semireducible] Rat.add Rat.mul Rat.inv Rat.sub

/-! ### Helper lemmas -/

theorem leOpt_refl (a : Option ℚ) : leOpt a a := by
  cases a <;> simp [leOpt]

theorem leOpt_trans {a b c : Option ℚ} (h1 : leOpt a b) (h2 : leOpt b c) :
    leOpt a c := by
  cases a <;> cases b <;> cases c <;> simp_all [leOpt]
  exact h1.trans h2

theorem sum_map_div (l : List ℚ) (s : ℚ) :
    (l.map (· / s)).sum = l.sum / s := by
  induction l with
  | nil => simp
  | cons x xs ih => simp [ih, add_div]

theorem sampleIdx_lt (l : List ℚ) (r : ℚ) (h : l ≠ []) :
    sampleIdx l r < l.length := by
  induction l generalizing r with
  | nil => exact absurd rfl h
  | cons x xs ih =>
    cases xs with
    | nil => simp [sampleIdx]
    | cons y t =>
      rw [sampleIdx]
      split
      · simp
      · have := ih (r - x) (by simp)
        simpa [Nat.add_lt_add_iff_right] using this

theorem getD_mem_of_lt {l : List ℕ} {i : ℕ} (h : i < l.length) (d0 : ℕ) :
    l.getD i d0 ∈ l := by
  induction l generalizing i with
  | nil => simp at h
  | cons x xs ih =>
    cases i with
    | zero => simp
    | succ k =>
      right
      exact ih (by simpa using h)

/-! ### C1: probabilistic selection -/

/-- C1 (counterexample): with `d(0,1) = 0` every score is zero
(`heuristic = 0`, `beta = 3`), the score sum is zero, and
`_select_next_city_as` raises (models as `none`) instead of returning
the uniform choice `some 1` over the unvisited candidate `[1]` that the
claim requires. -/
theorem select_zero_scores_raises_cx :
    selectNextCityAS (fun _ _ => 1) (fun _ _ => 0) 1 3 0 [1] (1 / 2) =
        none ∧
      (none : Option ℕ) ≠ some 1 := by
  constructor
  · decide
  · decide

/-- C1 (amended): for a non-empty unvisited list, the probabilistic
rule normalizes the scores `pheromone^alpha * heuristic^beta` to a
probability distribution (the normalized scores sum to 1) and samples
one unvisited candidate — but only when the score sum is nonzero; when
the score sum is zero the selection raises (`none`) rather than falling
back to a uniform random choice. -/
theorem select_normalizes_or_raises (ph d : ℕ → ℕ → ℚ) (alpha beta : ℕ)
    (cur : ℕ) (uv : List ℕ) (r : ℚ) (huv : uv ≠ []) :
    ((scoreList ph d alpha beta cur uv).sum = 0 →
      selectNextCityAS ph d alpha beta cur uv r = none) ∧
    ((scoreList ph d alpha beta cur uv).sum ≠ 0 →
      ((scoreList ph d alpha beta cur uv).map
          (· / (scoreList ph d alpha beta cur uv).sum)).sum = 1 ∧
      ∃ c, selectNextCityAS ph d alpha beta cur uv r = some c ∧
        c ∈ uv) := by
  constructor
  · intro h0
    simp [selectNextCityAS, h0]
  · intro hne
    refine ⟨by rw [sum_map_div]; exact div_self hne, ?_⟩
    refine ⟨uv.getD (sampleIdx ((scoreList ph d alpha beta cur uv).map
      (· / (scoreList ph d alpha beta cur uv).sum)) r) 0, ?_, ?_⟩
    · simp [selectNextCityAS, hne]
    · apply getD_mem_of_lt
      have hlen : ((scoreList ph d alpha beta cur uv).map
          (· / (scoreList ph d alpha beta cur uv).sum)).length =
          uv.length := by
        simp [scoreList]
      have hne' : ((scoreList ph d alpha beta cur uv).map
          (· / (scoreList ph d alpha beta cur uv).sum)) ≠ [] := by
        simp [scoreList]
        exact huv
      have := sampleIdx_lt _ r hne'
      omega

/-- C1 (witness for the amended theorem), at `uv = [1]`,
`d(0,1) = 2`, unit pheromone: the score sum is `1/2`, the normalized
distribution is `[1]`, and the sampled candidate is city `1`. -/
theorem select_normalizes_witness :
    ([1] : List ℕ) ≠ [] ∧
    (((scoreList (fun _ _ => 1) (fun _ _ => 2) 1 1 0 [1]).sum = 0 →
        selectNextCityAS (fun _ _ => 1) (fun _ _ => 2) 1 1 0 [1]
          (1 / 2) = none) ∧
      ((scoreList (fun _ _ => 1) (fun _ _ => 2) 1 1 0 [1]).sum ≠ 0 →
        ((scoreList (fun _ _ => 1) (fun _ _ => 2) 1 1 0 [1]).map
            (· / (scoreList (fun _ _ => 1) (fun _ _ => 2) 1 1 0
              [1]).sum)).sum = 1 ∧
        ∃ c, selectNextCityAS (fun _ _ => 1) (fun _ _ => 2) 1 1 0 [1]
            (1 / 2) = some c ∧ c ∈ [1])) :=
  ⟨by decide,
   select_normalizes_or_raises (fun _ _ => 1) (fun _ _ => 2) 1 1 0 [1]
     (1 / 2) (by decide)⟩

/-! ### C2: construction-time validation -/

/-- C2 (counterexample): `AntColonyTSP.__init__` with a single city —
fewer than the 2 the claim says must be rejected — completes normally,
with the state fully initialized; no `InvalidInput` error exists in the
code. -/
theorem tsp_init_single_city_completes_cx :
    (tspInitState 1 fun _ _ => 0).nCities = 1 ∧
    (tspInitState 1 fun _ _ => 0).pheromones 0 0 = 1 / 10 ∧
    (tspInitState 1 fun _ _ => 0).bestPath = none := by
  refine ⟨rfl, by decide, rfl⟩

/-- C2 (amended): construction performs no input validation:
`AntColonyTSP.__init__` completes normally for every city collection,
in particular for collections with fewer than 2 cities, initializing
the state (pheromones uniformly `0.1`); no `InvalidInput` error is
raised.  (`AdvancedACO.__init__` with fewer than 2 cities instead dies
with a `ZeroDivisionError` — the `none` branch of `advInitState` — not
an `InvalidInput` error.) -/
theorem tsp_init_no_validation (n : ℕ) (d : ℕ → ℕ → ℚ) (h : n < 2) :
    (tspInitState n d).nCities = n ∧
    ∀ a b, (tspInitState n d).pheromones a b = 1 / 10 :=
  ⟨rfl, fun _ _ => rfl⟩

/-- C2 (witness): the single-city instantiation of the amended
theorem. -/
theorem tsp_init_no_validation_witness :
    1 < 2 ∧
    ((tspInitState 1 fun _ _ => 0).nCities = 1 ∧
      ∀ a b, (tspInitState 1 fun _ _ => 0).pheromones a b = 1 / 10) :=
  ⟨by decide, tsp_init_no_validation 1 (fun _ _ => 0) (by decide)⟩

/-! ### C3: initial pheromone level -/

/-- C3 (counterexample): for two cities at distance 3 the
nearest-neighbour estimate is 6, so the claimed initial level is
`1/(2*6) = 1/12`; but `AntColonyTSP.__init__` (one of the two
constructors the claim covers) initializes every pheromone entry to the
constant `0.1 ≠ 1/12`. -/
theorem tsp_init_pheromone_cx :
    (tspInitState 2 fun a b => if a = b then 0 else 3).pheromones 0 1 =
        1 / 10 ∧
    1 / ((2 : ℚ) * nnEstimate (fun a b => if a = b then 0 else 3) 2) =
        1 / 12 ∧
    (1 : ℚ) / 10 ≠ 1 / 12 := by
  refine ⟨by decide, by decide, by decide⟩

/-- C3 (amended): `AdvancedACO.__init__` does initialize every
pheromone entry to `1 / (n * nearest_neighbor_estimate())` (whenever
construction completes, i.e. the denominator is nonzero);
`AntColonyTSP.__init__` instead initializes every entry to the constant
`0.1`. -/
theorem adv_init_pheromone_uniform (n : ℕ) (d : ℕ → ℕ → ℚ)
    (cfg : ACOConfig) (a b : ℕ)
    (h : (n : ℚ) * nnEstimate d n ≠ 0) :
    (advInitState n d cfg).map (fun s => s.pheromones a b) =
      some (1 / ((n : ℚ) * nnEstimate d n)) ∧
    ∀ a' b', (tspInitState n d).pheromones a' b' = 1 / 10 := by
  refine ⟨?_, fun _ _ => rfl⟩
  simp [advInitState, h]

/-- C3 (witness): two cities at distance 1; the nearest-neighbour
estimate is 2 and the advanced optimizer's initial pheromone level is
`1/4`. -/
theorem adv_init_pheromone_uniform_witness :
    (2 : ℚ) * nnEstimate (fun a b => if a = b then 0 else 1) 2 ≠ 0 ∧
    ((advInitState 2 (fun a b => if a = b then 0 else 1)
        { variant := Variant.AS, nAnts := 1, nIters := 1, alpha := 1,
          beta := 1, rho := 1 / 2, q0 := 9 / 10, tauMinOpt := none,
          tauMaxOpt := none, eliteWeight := 6, nElite := 5,
          localSearch := false }).map (fun s => s.pheromones 0 1) =
      some (1 / ((2 : ℚ) *
        nnEstimate (fun a b => if a = b then 0 else 1) 2)) ∧
    ∀ a' b', (tspInitState 2 fun a b => if a = b then 0 else 1
      ).pheromones a' b' = 1 / 10) :=
  ⟨by decide,
   adv_init_pheromone_uniform 2 (fun a b => if a = b then 0 else 1)
     { variant := Variant.AS, nAnts := 1, nIters := 1, alpha := 1,
       beta := 1, rho := 1 / 2, q0 := 9 / 10, tauMinOpt := none,
       tauMaxOpt := none, eliteWeight := 6, nElite := 5,
       localSearch := false } 0 1 (by decide)⟩

/-! ### C4: MMAS pheromone bounds -/

/-- C4: after the Bounded (MMAS) round update every matrix entry lies
within `[tauMin, tauMax]` (for any deposit source and any prior
matrix, given a well-ordered pair of bounds); and when no bounds are
supplied at construction they default to
`tau_max = 1/(evaporation_rate * nearest_neighbor_estimate())` and
`tau_min = tau_max / (2n)`. -/
theorem mmas_update_within_bounds (ph : ℕ → ℕ → ℚ) (rho : ℚ)
    (p : List ℕ) (dist : ℚ) (tmin tmax : ℚ) (h : tmin ≤ tmax) (n : ℕ)
    (d : ℕ → ℕ → ℚ) (cfg : ACOConfig)
    (hv : cfg.variant = Variant.MMAS) (hmin : cfg.tauMinOpt = none)
    (hmax : cfg.tauMaxOpt = none)
    (hnz : (n : ℚ) * nnEstimate d n ≠ 0) :
    (∀ a b, tmin ≤ updateMMAS ph rho p dist tmin tmax a b ∧
      updateMMAS ph rho p dist tmin tmax a b ≤ tmax) ∧
    (advInitState n d cfg).map (fun s => (s.tauMin, s.tauMax)) =
      some (some (1 / (cfg.rho * nnEstimate d n) / (2 * (n : ℚ))),
            some (1 / (cfg.rho * nnEstimate d n))) := by
  constructor
  · intro a b
    refine ⟨le_min h (le_max_left _ _), min_le_left _ _⟩
  · simp [advInitState, hnz, hv, hmin, hmax]

/-- C4 (witness): bounds `[1/100, 10]` and the default bounds of a
2-city MMAS instance (`tau_max = 1`, `tau_min = 1/4`). -/
theorem mmas_update_within_bounds_witness :
    (1 : ℚ) / 100 ≤ 10 ∧
    (2 : ℚ) * nnEstimate (fun a b => if a = b then 0 else 1) 2 ≠ 0 ∧
    ((∀ a b, (1 : ℚ) / 100 ≤
        updateMMAS (fun _ _ => 1 / 4) (1 / 2) [1, 0] 2 (1 / 100) 10
          a b ∧
        updateMMAS (fun _ _ => 1 / 4) (1 / 2) [1, 0] 2 (1 / 100) 10
          a b ≤ 10) ∧
    (advInitState 2 (fun a b => if a = b then 0 else 1)
        { variant := Variant.MMAS, nAnts := 1, nIters := 1, alpha := 1,
          beta := 1, rho := 1 / 2, q0 := 9 / 10, tauMinOpt := none,
          tauMaxOpt := none, eliteWeight := 6, nElite := 5,
          localSearch := false }).map (fun s => (s.tauMin, s.tauMax)) =
      some (some (1 / ((1 : ℚ) / 2 *
              nnEstimate (fun a b => if a = b then 0 else 1) 2) /
            (2 * (2 : ℚ))),
            some (1 / ((1 : ℚ) / 2 *
              nnEstimate (fun a b => if a = b then 0 else 1) 2)))) :=
  ⟨by decide, by decide,
   mmas_update_within_bounds (fun _ _ => 1 / 4) (1 / 2) [1, 0] 2
     (1 / 100) 10 (by decide) 2 (fun a b => if a = b then 0 else 1)
     { variant := Variant.MMAS, nAnts := 1, nIters := 1, alpha := 1,
       beta := 1, rho := 1 / 2, q0 := 9 / 10, tauMinOpt := none,
       tauMaxOpt := none, eliteWeight := 6, nElite := 5,
       localSearch := false } rfl rfl rfl (by decide)⟩

/-! ### 2-opt lemmas (C6, C10) -/

theorem twoOptSwap_perm (p : List ℕ) (i j : ℕ) (hij : i ≤ j + 1) :
    List.Perm (twoOptSwap p i j) p := by
  unfold twoOptSwap
  rw [List.append_assoc]
  conv_rhs => rw [← List.take_append_drop i p]
  refine List.Perm.append_left _ ?_
  have hidx : i + (j + 1 - i) = j + 1 := by omega
  have hsplit : (p.drop i).take (j + 1 - i) ++ p.drop (j + 1) =
      p.drop i := by
    conv_rhs => rw [← List.take_append_drop (j + 1 - i) (p.drop i)]
    rw [List.drop_drop, hidx]
  refine List.Perm.trans
    (List.Perm.append_right _ (List.reverse_perm _)) ?_
  rw [hsplit]

theorem mem_scanPairs {m i j : ℕ} (h : (i, j) ∈ scanPairs m) :
    1 ≤ i ∧ i < j ∧ j < m := by
  unfold scanPairs at h
  rw [List.mem_flatMap] at h
  obtain ⟨i', hi', hj⟩ := h
  rw [List.mem_map] at hj
  obtain ⟨j', hj', hje⟩ := hj
  obtain ⟨rfl, rfl⟩ : i' = i ∧ j' = j := by
    constructor <;> [exact (Prod.mk.injEq _ _ _ _ ▸ hje).1;
      exact (Prod.mk.injEq _ _ _ _ ▸ hje).2]
  have h1 := List.mem_range'_1.mp hi'
  have h2 := List.mem_range'_1.mp hj'
  omega

theorem firstImprove_spec {d : ℕ → ℕ → ℚ} {p q : List ℕ}
    (h : firstImprove d p = some q) :
    tourLen d q < tourLen d p ∧ List.Perm q p ∧ q.head? = p.head? := by
  unfold firstImprove at h
  obtain ⟨⟨i, j⟩, hmem, hf⟩ := List.exists_of_findSome?_eq_some h
  dsimp at hf
  by_cases hlt : tourLen d (twoOptSwap p i j) < tourLen d p
  · rw [if_pos hlt] at hf
    obtain rfl : twoOptSwap p i j = q := by injection hf
    obtain ⟨h1i, hij, hjm⟩ := mem_scanPairs hmem
    refine ⟨hlt, twoOptSwap_perm p i j (by omega), ?_⟩
    obtain ⟨a, t, rfl⟩ : ∃ a t, p = a :: t := by
      cases p with
      | nil => simp at hjm
      | cons a t => exact ⟨a, t, rfl⟩
    obtain ⟨i', rfl⟩ : ∃ i', i = i' + 1 := ⟨i - 1, by omega⟩
    simp [twoOptSwap]
  · rw [if_neg hlt] at hf
    exact absurd hf (by simp)

theorem countP_mono_of {α : Type} (l : List α) (P Q : α → Bool)
    (h : ∀ a ∈ l, P a → Q a) : l.countP P ≤ l.countP Q := by
  induction l with
  | nil => simp
  | cons a t ih =>
    rw [List.countP_cons, List.countP_cons]
    have ht := ih fun x hx => h x (List.mem_cons_of_mem a hx)
    by_cases ha : P a
    · rw [if_pos ha, if_pos (h a (List.mem_cons_self a t) ha)]
      omega
    · rw [if_neg ha]
      split <;> omega

theorem countP_lt_of {α : Type} (l : List α) (P Q : α → Bool)
    (h : ∀ a ∈ l, P a → Q a) (x : α) (hx : x ∈ l) (hQ : Q x)
    (hP : ¬P x) : l.countP P < l.countP Q := by
  induction l with
  | nil => simp at hx
  | cons a t ih =>
    rw [List.countP_cons, List.countP_cons]
    have hmono := countP_mono_of t P Q
      fun y hy => h y (List.mem_cons_of_mem a hy)
    rcases List.mem_cons.mp hx with rfl | hxt
    · rw [if_neg hP, if_pos hQ]
      omega
    · have := ih (fun y hy => h y (List.mem_cons_of_mem a hy)) hxt
      by_cases ha : P a
      · rw [if_pos ha, if_pos (h a (List.mem_cons_self a t) ha)]
        omega
      · rw [if_neg ha]
        split <;> omega

theorem twoOptLoop_le (d : ℕ → ℕ → ℚ) (fuel : ℕ) (p : List ℕ) :
    tourLen d (twoOptLoop d fuel p) ≤ tourLen d p := by
  induction fuel generalizing p with
  | zero => simp [twoOptLoop]
  | succ f ih =>
    rw [twoOptLoop]
    cases h : firstImprove d p with
    | none => exact le_refl _
    | some q => exact (ih q).trans (firstImprove_spec h).1.le

theorem twoOptLoop_perm (d : ℕ → ℕ → ℚ) (fuel : ℕ) (p : List ℕ) :
    List.Perm (twoOptLoop d fuel p) p := by
  induction fuel generalizing p with
  | zero => simp [twoOptLoop]
  | succ f ih =>
    rw [twoOptLoop]
    cases h : firstImprove d p with
    | none => exact List.Perm.refl _
    | some q => exact (ih q).trans (firstImprove_spec h).2.1

theorem twoOptLoop_head (d : ℕ → ℕ → ℚ) (fuel : ℕ) (p : List ℕ) :
    (twoOptLoop d fuel p).head? = p.head? := by
  induction fuel generalizing p with
  | zero => simp [twoOptLoop]
  | succ f ih =>
    rw [twoOptLoop]
    cases h : firstImprove d p with
    | none => rfl
    | some q => exact (ih q).trans (firstImprove_spec h).2.2

theorem twoOptLoop_fix (d : ℕ → ℕ → ℚ) (p0 : List ℕ) (fuel : ℕ)
    (p : List ℕ) (hperm : List.Perm p p0)
    (hfuel : p0.permutations.countP
      (fun s => decide (tourLen d s < tourLen d p)) < fuel) :
    firstImprove d (twoOptLoop d fuel p) = none := by
  induction fuel generalizing p with
  | zero => omega
  | succ f ih =>
    rw [twoOptLoop]
    cases h : firstImprove d p with
    | none => exact h
    | some q =>
      obtain ⟨hlt, hqp, _⟩ := firstImprove_spec h
      refine ih q (hqp.trans hperm) ?_
      have hstep : p0.permutations.countP
          (fun s => decide (tourLen d s < tourLen d q)) <
          p0.permutations.countP
            (fun s => decide (tourLen d s < tourLen d p)) := by
        refine countP_lt_of _ _ _ ?_ q ?_ ?_ ?_
        · intro s _ hs
          simp only [decide_eq_true_eq] at hs ⊢
          exact hs.trans hlt
        · exact List.mem_permutations.mpr (hqp.trans hperm)
        · simpa using hlt
        · simp
      omega

/-- `_two_opt`'s unbounded `while improved` loop always terminates: with
the fuel used by `twoOpt`, the loop reaches a state with no improving
move (this justifies the fuel-based embedding). -/
theorem twoOpt_fixpoint (d : ℕ → ℕ → ℚ) (p : List ℕ) :
    firstImprove d (twoOpt d p) = none := by
  refine twoOptLoop_fix d p _ p (List.Perm.refl p) ?_
  have := List.countP_le_length
    (l := p.permutations)
    (p := fun s => decide (tourLen d s < tourLen d p))
  omega

/-! ### C6: 2-opt never increases tour length -/

/-- C6: for every input tour that is a permutation of `0..n-1`, the
2-opt local search never increases the tour length. -/
theorem two_opt_never_increases (d : ℕ → ℕ → ℚ) (n : ℕ) (p : List ℕ)
    (hp : List.Perm p (List.range n)) :
    tourLen d (twoOpt d p) ≤ tourLen d p :=
  twoOptLoop_le d _ p

/-- C6 (witness): on `[0,2,1,3]` with distances `|a-b|` the search
finds the improving reversal `[0,1,2,3]` and the resulting length
does not exceed the input length. -/
theorem two_opt_never_increases_witness :
    List.Perm ([0, 2, 1, 3] : List ℕ) (List.range 4) ∧
    tourLen (fun a b => |(a : ℚ) - (b : ℚ)|)
        (twoOpt (fun a b => |(a : ℚ) - (b : ℚ)|) [0, 2, 1, 3]) ≤
      tourLen (fun a b => |(a : ℚ) - (b : ℚ)|) [0, 2, 1, 3] :=
  ⟨by decide,
   two_opt_never_increases (fun a b => |(a : ℚ) - (b : ℚ)|) 4
     [0, 2, 1, 3] (by decide)⟩

/-! ### C10: 2-opt preserves the multiset of cities and the start -/

/-- C10: for every input tour, 2-opt returns a rearrangement of exactly
the same city indices (a list permutation — nothing added, dropped or
duplicated) and leaves the city at position 0 unchanged, because every
reversed segment starts at an index `i ≥ 1`. -/
theorem two_opt_permutes_and_fixes_start (d : ℕ → ℕ → ℚ)
    (p : List ℕ) :
    List.Perm (twoOpt d p) p ∧ (twoOpt d p).head? = p.head? :=
  ⟨twoOptLoop_perm d _ p, twoOptLoop_head d _ p⟩

/-! ### Tour-length algebra (C8) -/

theorem pathSum_snoc (d : ℕ → ℕ → ℚ) (l : List ℕ) (a : ℕ) :
    pathSum d (l ++ [a]) = pathSum d l + edgeQ d l.getLast? (some a) := by
  induction l with
  | nil => simp [pathSum, edgeQ]
  | cons x xs ih =>
    cases xs with
    | nil => simp [pathSum, edgeQ]
    | cons y ys =>
      have h1 : ((x :: y :: ys) ++ [a]) = x :: y :: (ys ++ [a]) := rfl
      have h2 : y :: (ys ++ [a]) = (y :: ys) ++ [a] := rfl
      rw [h1, pathSum, h2, ih, pathSum, List.getLast?_cons_cons]
      ring

theorem pathSum_reverse (d : ℕ → ℕ → ℚ) (l : List ℕ) :
    pathSum d l.reverse = pathSum (fun a b => d b a) l := by
  induction l with
  | nil => rfl
  | cons x xs ih =>
    rw [List.reverse_cons, pathSum_snoc, ih, List.getLast?_reverse]
    cases xs with
    | nil => simp [pathSum, edgeQ]
    | cons y ys =>
      simp only [List.head?_cons, pathSum, edgeQ]
      ring

theorem edgeQ_comm {d : ℕ → ℕ → ℚ} (hsym : ∀ a b, d a b = d b a)
    (x y : Option ℕ) : edgeQ d x y = edgeQ d y x := by
  cases x <;> cases y <;> simp [edgeQ]
  exact hsym _ _

theorem pathSum_eq_zip (d : ℕ → ℕ → ℚ) (l : List ℕ) :
    pathSum d l = ((l.zip l.tail).map fun e => d e.1 e.2).sum := by
  induction l with
  | nil => simp [pathSum]
  | cons x xs ih =>
    cases xs with
    | nil => simp [pathSum]
    | cons y ys =>
      simp only [pathSum, ih, List.tail_cons, List.zip_cons_cons,
        List.map_cons, List.sum_cons]

theorem tourLen_rotate_one (d : ℕ → ℕ → ℚ) (p : List ℕ) :
    tourLen d (p.rotate 1) = tourLen d p := by
  cases p with
  | nil => rfl
  | cons a t =>
    rw [List.rotate_cons_succ, List.rotate_zero]
    cases t with
    | nil => simp
    | cons b t' =>
      have hl : ((b :: t') ++ [a]) = b :: (t' ++ [a]) := rfl
      unfold tourLen closeEdge
      rw [pathSum_snoc, List.getLast?_concat, hl, List.head?_cons,
        List.getLast?_cons_cons, pathSum, List.head?_cons]
      cases t' with
      | nil => simp [pathSum, edgeQ]; ring
      | cons c t'' =>
        rw [List.getLast?_cons_cons]
        simp only [edgeQ]
        ring

theorem tourLen_rotate (d : ℕ → ℕ → ℚ) (p : List ℕ) (k : ℕ) :
    tourLen d (p.rotate k) = tourLen d p := by
  induction k with
  | zero => rw [List.rotate_zero]
  | succ m ih =>
    have hr : p.rotate (m + 1) = (p.rotate m).rotate 1 := by
      rw [List.rotate_rotate]
    rw [hr, tourLen_rotate_one, ih]

theorem tourLen_reverse {d : ℕ → ℕ → ℚ} (hsym : ∀ a b, d a b = d b a)
    (p : List ℕ) : tourLen d p.reverse = tourLen d p := by
  unfold tourLen closeEdge
  rw [pathSum_reverse, List.head?_reverse, List.getLast?_reverse]
  have hd : (fun a b => d b a) = d := by
    funext a b
    exact hsym b a
  rw [hd, edgeQ_comm hsym]

/-- C8: for every permutation tour over a symmetric distance matrix,
`_calculate_path_distance` is the sum of the consecutive-edge distances
plus the closing edge back to the start, and its value is unchanged by
any rotation of the tour and by reversing the tour. -/
theorem tour_length_formula_rotation_reversal (d : ℕ → ℕ → ℚ) (n : ℕ)
    (p : List ℕ) (hsym : ∀ a b, d a b = d b a)
    (hp : List.Perm p (List.range n)) :
    tourLen d p =
        ((p.zip p.tail).map fun e => d e.1 e.2).sum + closeEdge d p ∧
    (∀ k, tourLen d (p.rotate k) = tourLen d p) ∧
    tourLen d p.reverse = tourLen d p :=
  ⟨by rw [tourLen, pathSum_eq_zip], fun k => tourLen_rotate d p k,
    tourLen_reverse hsym p⟩

/-- C8 (witness): the tour `[0,1,2]` under the distance matrix
`|a - b|`. -/
theorem tour_length_invariance_witness :
    (∀ a b, |(a : ℚ) - (b : ℚ)| = |(b : ℚ) - (a : ℚ)|) ∧
    List.Perm ([0, 1, 2] : List ℕ) (List.range 3) ∧
    (tourLen (fun a b => |(a : ℚ) - (b : ℚ)|) [0, 1, 2] =
        ((([0, 1, 2] : List ℕ).zip ([0, 1, 2] : List ℕ).tail).map
          fun e => |(e.1 : ℚ) - (e.2 : ℚ)|).sum +
        closeEdge (fun a b => |(a : ℚ) - (b : ℚ)|) [0, 1, 2] ∧
      (∀ k, tourLen (fun a b => |(a : ℚ) - (b : ℚ)|)
          (([0, 1, 2] : List ℕ).rotate k) =
        tourLen (fun a b => |(a : ℚ) - (b : ℚ)|) [0, 1, 2]) ∧
      tourLen (fun a b => |(a : ℚ) - (b : ℚ)|)
          ([0, 1, 2] : List ℕ).reverse =
        tourLen (fun a b => |(a : ℚ) - (b : ℚ)|) [0, 1, 2]) :=
  ⟨fun a b => abs_sub_comm _ _, by decide,
   tour_length_formula_rotation_reversal
     (fun a b => |(a : ℚ) - (b : ℚ)|) 3 [0, 1, 2]
     (fun a b => abs_sub_comm _ _) (by decide)⟩

/-! ### Rank-based update lemmas (C7) -/

theorem perm_insertByKey (key : ℕ → ℚ) (i : ℕ) (l : List ℕ) :
    List.Perm (insertByKey key i l) (i :: l) := by
  induction l with
  | nil => exact List.Perm.refl _
  | cons j rest ih =>
    rw [insertByKey]
    split
    · exact List.Perm.refl _
    · exact (ih.cons j).trans (List.Perm.swap i j rest)

theorem perm_sortByKey (key : ℕ → ℚ) (l : List ℕ) :
    List.Perm (sortByKey key l) l := by
  induction l with
  | nil => exact List.Perm.refl _
  | cons i rest ih =>
    exact (perm_insertByKey key i _).trans (ih.cons i)

theorem sorted_insertByKey (key : ℕ → ℚ) (i : ℕ) {l : List ℕ}
    (hl : List.Sorted (fun a b => key a ≤ key b) l) :
    List.Sorted (fun a b => key a ≤ key b) (insertByKey key i l) := by
  induction l with
  | nil => simp [insertByKey]
  | cons j rest ih =>
    rw [insertByKey]
    rw [List.sorted_cons] at hl
    split
    · rename_i hij
      rw [List.sorted_cons]
      refine ⟨?_, List.sorted_cons.mpr hl⟩
      intro x hx
      rcases List.mem_cons.mp hx with rfl | hxr
      · exact hij
      · exact hij.trans (hl.1 x hxr)
    · rename_i hij
      rw [List.sorted_cons]
      refine ⟨?_, ih hl.2⟩
      intro x hx
      have hx' := (perm_insertByKey key i rest).mem_iff.mp hx
      rcases List.mem_cons.mp hx' with rfl | hxr
      · exact le_of_not_le hij
      · exact hl.1 x hxr

theorem sorted_sortByKey (key : ℕ → ℚ) (l : List ℕ) :
    List.Sorted (fun a b => key a ≤ key b) (sortByKey key l) := by
  induction l with
  | nil => simp [sortByKey]
  | cons i rest ih => exact sorted_insertByKey key i ih

theorem foldl_depositEdges {β : Type} (l : List β) (pf : β → List ℕ)
    (af : β → ℚ) (ph : ℕ → ℕ → ℚ) (a b : ℕ) :
    (l.foldl (fun m e => depositEdges m (pf e) (af e)) ph) a b =
      ph a b +
        (l.map fun e => af e * (edgeCount (pf e) a b : ℚ)).sum := by
  induction l generalizing ph with
  | nil => simp
  | cons e t ih =>
    rw [List.foldl_cons, ih, List.map_cons, List.sum_cons]
    simp only [depositEdges]
    ring

/-! ### C7: rank-weighted update -/

/-- C7: the Rank-weighted update ranks the agents' indices ascending by
tour distance; each pheromone entry after the update equals the
evaporated entry, plus `(n_elite - rank)/distance` for each traversed
edge of each of the top `n_elite` ranked tours (rank 0 = best), plus
the global best tour's extra `elite_weight/best_distance` deposit.  The
number of elite depositors is `min n_elite n_ants`, so an `n_elite`
exceeding the agent count simply truncates to the available agents and
never errors. -/
theorem rank_update_characterization (ph : ℕ → ℕ → ℚ) (rho : ℚ)
    (ps : List (List ℕ)) (ds : List ℚ) (bp : List ℕ) (bd ew : ℚ)
    (nElite : ℕ) (a b : ℕ) :
    updateRank ph rho ps ds bp bd ew nElite a b =
      (1 - rho) * ph a b +
        (((rankIndices ds).take nElite).enum.map fun ri =>
          ((nElite - ri.1 : ℕ) : ℚ) / ds.getD ri.2 0 *
            (edgeCount (ps.getD ri.2 []) a b : ℚ)).sum +
        ew / bd * (edgeCount bp a b : ℚ) ∧
    List.Sorted (· ≤ ·) ((rankIndices ds).map fun i => ds.getD i 0) ∧
    ((rankIndices ds).take nElite).length = min nElite ds.length := by
  refine ⟨?_, ?_, ?_⟩
  · show depositEdges _ bp (ew / bd) a b = _
    rw [depositEdges]
    rw [foldl_depositEdges ((rankIndices ds).take nElite).enum
      (fun ri => ps.getD ri.2 [])
      (fun ri => ((nElite - ri.1 : ℕ) : ℚ) / ds.getD ri.2 0)
      (evap ph rho) a b]
    rw [evap]
  · have hs := sorted_sortByKey (fun i => ds.getD i 0)
      (List.range ds.length)
    exact List.pairwise_map.mpr hs
  · rw [List.length_take, rankIndices, (perm_sortByKey _ _).length_eq,
      List.length_range]

/-! ### Best-distance monotonicity lemmas (C5) -/

theorem leOpt_of_ltOpt {q : ℚ} {ob : Option ℚ} (h : ltOpt q ob = true) :
    leOpt (some q) ob := by
  cases ob with
  | none => trivial
  | some b =>
    simp [ltOpt] at h
    exact h.le

theorem updateBests_le (s : ACOState) (p : List ℕ) (q : ℚ) :
    leOpt (updateBests s p q).bestDistance s.bestDistance := by
  by_cases h1 : ltOpt q s.iterationBestDistance = true <;>
    by_cases h2 : ltOpt q s.bestDistance = true <;>
      simp only [updateBests, h1, h2, if_true, if_false,
        Bool.false_eq_true, ite_true, ite_false]
  · exact leOpt_of_ltOpt h2
  · exact leOpt_refl _
  · exact leOpt_of_ltOpt h2
  · exact leOpt_refl _

theorem updateBests_history (s : ACOState) (p : List ℕ) (q : ℚ) :
    (updateBests s p q).history = s.history := by
  by_cases h1 : ltOpt q s.iterationBestDistance = true <;>
    by_cases h2 : ltOpt q s.bestDistance = true <;>
      simp only [updateBests, h1, h2, if_true, if_false,
        Bool.false_eq_true, ite_true, ite_false]

theorem antLoop_spec (g : ℕ → ℚ) (k : ℕ) :
    ∀ (s : ACOState) (ps : List (List ℕ)) (ds : List ℚ)
      (s' : ACOState) (ps' : List (List ℕ)) (ds' : List ℚ),
      antLoop g k s ps ds = some (s', ps', ds') →
      leOpt s'.bestDistance s.bestDistance ∧ s'.history = s.history := by
  induction k with
  | zero =>
    intro s ps ds s' ps' ds' h
    rw [antLoop] at h
    simp only [Option.some.injEq, Prod.mk.injEq] at h
    obtain ⟨rfl, -, -⟩ := h
    exact ⟨leOpt_refl _, rfl⟩
  | succ k ih =>
    intro s ps ds s' ps' ds' h
    rw [antLoop] at h
    cases hc : constructSolution g s with
    | none => rw [hc] at h; exact absurd h (by simp)
    | some pr =>
      obtain ⟨path, ph', idx'⟩ := pr
      rw [hc] at h
      dsimp only at h
      have hstep := ih _ _ _ _ _ _ h
      refine ⟨leOpt_trans hstep.1 ?_, ?_⟩
      · exact updateBests_le
          { s with pheromones := ph', rngIdx := idx' } path
          (tourLen s.distances path)
      · rw [hstep.2, updateBests_history]

theorem roundStep_spec (g : ℕ → ℚ) (iter : ℕ) (s s' : ACOState)
    (h : roundStep g iter s = some s') :
    leOpt s'.bestDistance s.bestDistance ∧
    ∃ e, s'.history = s.history ++ [e] ∧
      e.bestDistance = s'.bestDistance := by
  unfold roundStep at h
  dsimp only at h
  cases hc : antLoop g s.cfg.nAnts
      { s with currentIteration := iter, iterationBestDistance := none,
               iterationBestPath := none } [] [] with
  | none => rw [hc] at h; exact absurd h (by simp)
  | some pr =>
    obtain ⟨s1, ps, ds⟩ := pr
    rw [hc] at h
    dsimp only at h
    injection h with h'
    have hant := antLoop_spec g s.cfg.nAnts _ _ _ _ _ _ hc
    subst h'
    refine ⟨hant.1,
      ⟨{ iteration := iter, bestDistance := s1.bestDistance,
         iterationBest := s1.iterationBestDistance,
         avgDistance := ds.sum / (ds.length : ℚ),
         minPheromone := listMin ((matrixEntries (updateDispatch s1 ps ds)
           s1.nCities).filter fun x => 0 < x),
         maxPheromone := listMax (matrixEntries (updateDispatch s1 ps ds)
           s1.nCities),
         bestPath := s1.bestPath }, ?_, rfl⟩⟩
    show s1.history ++ _ = s.history ++ _
    rw [hant.2]

/-- The history invariant maintained across rounds: recorded best
distances are non-increasing along the history, and the current best is
at most every recorded one. -/
def histSorted (s : ACOState) : Prop :=
  List.Pairwise (fun e1 e2 => leOpt e2.bestDistance e1.bestDistance)
    s.history ∧
  ∀ e ∈ s.history, leOpt s.bestDistance e.bestDistance

theorem roundStep_inv (g : ℕ → ℚ) (iter : ℕ) (s s' : ACOState)
    (h : roundStep g iter s = some s') (hs : histSorted s) :
    histSorted s' := by
  obtain ⟨hle, e, hh, he⟩ := roundStep_spec g iter s s' h
  constructor
  · rw [hh, List.pairwise_append]
    refine ⟨hs.1, List.pairwise_singleton _ _, ?_⟩
    intro a ha b hb
    rcases List.mem_singleton.mp hb with rfl
    rw [he]
    exact leOpt_trans hle (hs.2 a ha)
  · intro x hx
    rw [hh] at hx
    rcases List.mem_append.mp hx with hold | hnew
    · exact leOpt_trans hle (hs.2 x hold)
    · rcases List.mem_singleton.mp hnew with rfl
      rw [he]
      exact leOpt_refl _

theorem roundsLoop_inv (g : ℕ → ℚ) (k : ℕ) :
    ∀ (iter : ℕ) (s s' : ACOState),
      roundsLoop g k iter s = some s' → histSorted s → histSorted s' := by
  induction k with
  | zero =>
    intro iter s s' h hs
    rw [roundsLoop] at h
    injection h with h'
    subst h'
    exact hs
  | succ k ih =>
    intro iter s s' h hs
    rw [roundsLoop] at h
    cases hc : roundStep g iter s with
    | none => rw [hc] at h; exact absurd h (by simp)
    | some s1 =>
      rw [hc] at h
      exact ih _ _ _ h (roundStep_inv g iter s s1 hc hs)

theorem advInitState_history (n : ℕ) (d : ℕ → ℕ → ℚ) (cfg : ACOConfig)
    (s0 : ACOState) (h : advInitState n d cfg = some s0) :
    s0.history = [] := by
  unfold advInitState at h
  dsimp only at h
  by_cases hz : (n : ℚ) * nnEstimate d n = 0
  · rw [if_pos hz] at h
    exact absurd h (by simp)
  · rw [if_neg hz] at h
    injection h with h'
    subst h'
    rfl

/-! ### C5: global-best distance is non-increasing across rounds -/

/-- C5: in every run of `solve`, the global-best distance recorded at
each round is monotonically non-increasing: for rounds `i ≤ j` of one
run's history, the best distance at round `j` is at most the best
distance at round `i`. -/
theorem best_distance_monotone (n : ℕ) (d : ℕ → ℕ → ℚ)
    (cfg : ACOConfig) (g : ℕ → ℚ) (i j : ℕ) (e1 e2 : RoundRecord)
    (hij : i ≤ j) (h1 : (solveHist n d cfg g).get? i = some e1)
    (h2 : (solveHist n d cfg g).get? j = some e2) :
    leOpt e2.bestDistance e1.bestDistance := by
  unfold solveHist at h1 h2
  cases hsolve : solveAdv n d cfg g with
  | none => rw [hsolve] at h1; simp at h1
  | some s =>
    rw [hsolve] at h1 h2
    have hred : ((some s).map ACOState.history).getD ([] : List RoundRecord)
        = s.history := rfl
    rw [hred] at h1 h2
    have hinv : histSorted s := by
      unfold solveAdv at hsolve
      cases hinit : advInitState n d cfg with
      | none => rw [hinit] at hsolve; exact absurd hsolve (by simp)
      | some s0 =>
        rw [hinit] at hsolve
        dsimp only at hsolve
        refine roundsLoop_inv g cfg.nIters 0 s0 s hsolve ?_
        have hh0 := advInitState_history n d cfg s0 hinit
        constructor
        · rw [hh0]; exact List.Pairwise.nil
        · intro e he
          rw [hh0] at he
          exact absurd he (List.not_mem_nil e)
    rcases Nat.lt_or_ge i j with hlt | hge
    · obtain ⟨hi, hgi⟩ := List.get?_eq_some.mp h1
      obtain ⟨hj, hgj⟩ := List.get?_eq_some.mp h2
      have hp := List.pairwise_iff_get.mp hinv.1 ⟨i, hi⟩ ⟨j, hj⟩
        (by exact hlt)
      rw [hgi, hgj] at hp
      exact hp
    · have heq : i = j := le_antisymm hij hge
      subst heq
      rw [h1] at h2
      injection h2 with h'
      rw [← h']
      exact leOpt_refl _

/-- C5 (witness): a 2-city, 1-ant, 1-round run; rounds `0 ≤ 0` of its
history both record best distance 2. -/
theorem best_distance_monotone_witness :
    (0 : ℕ) ≤ 0 ∧ leOpt (some 2) (some 2) :=
  ⟨le_refl 0,
   best_distance_monotone 2 (fun a b => if a = b then 0 else 1)
     { variant := Variant.AS, nAnts := 1, nIters := 1, alpha := 1,
       beta := 0, rho := 0, q0 := 9 / 10, tauMinOpt := none,
       tauMaxOpt := none, eliteWeight := 6, nElite := 5,
       localSearch := false } (fun _ => 1 / 2) 0 0
     { iteration := 0, bestDistance := some 2, iterationBest := some 2,
       avgDistance := 2, minPheromone := 1 / 4, maxPheromone := 5 / 4,
       bestPath := some [1, 0] }
     { iteration := 0, bestDistance := some 2, iterationBest := some 2,
       avgDistance := 2, minPheromone := 1 / 4, maxPheromone := 5 / 4,
       bestPath := some [1, 0] }
     (le_refl 0) (by decide) (by decide)⟩

/-! ### C9: determinism -/

/-- C9: two runs that are each freshly constructed from identical
cities, identical configuration and the same integer seed produce
identical results — the same final state, hence the same round-by-round
history (including each round's best tour) and the same final best tour
and distance.  In the embedding every random draw is read from the
stream determined by the seed (both Python generators are re-seeded at
construction, advanced_aco.py:75-77), so a run is a pure function of
`(cities, configuration, seed)`. -/
theorem identical_seed_identical_run (seedStream : ℤ → ℕ → ℚ)
    (seed : ℤ) (n : ℕ) (d : ℕ → ℕ → ℚ) (cfg : ACOConfig)
    (r1 r2 : Option ACOState)
    (h1 : r1 = solveAdv n d cfg (seedStream seed))
    (h2 : r2 = solveAdv n d cfg (seedStream seed)) :
    r1 = r2 ∧
    r1.map ACOState.history = r2.map ACOState.history ∧
    r1.map (fun s => (s.bestPath, s.bestDistance)) =
      r2.map (fun s => (s.bestPath, s.bestDistance)) := by
  subst h1
  subst h2
  exact ⟨rfl, rfl, rfl⟩

/-- C9 (witness): two freshly constructed runs of a concrete 2-city
instance with the same seed. -/
theorem identical_seed_identical_run_witness :
    solveAdv 2 (fun a b => if a = b then 0 else 1)
        { variant := Variant.AS, nAnts := 1, nIters := 1, alpha := 1,
          beta := 0, rho := 0, q0 := 9 / 10, tauMinOpt := none,
          tauMaxOpt := none, eliteWeight := 6, nElite := 5,
          localSearch := false } ((fun _ : ℤ => fun _ : ℕ => (1 : ℚ) / 2) 0) =
      solveAdv 2 (fun a b => if a = b then 0 else 1)
        { variant := Variant.AS, nAnts := 1, nIters := 1, alpha := 1,
          beta := 0, rho := 0, q0 := 9 / 10, tauMinOpt := none,
          tauMaxOpt := none, eliteWeight := 6, nElite := 5,
          localSearch := false } ((fun _ : ℤ => fun _ : ℕ => (1 : ℚ) / 2) 0) :=
  (identical_seed_identical_run (fun _ => fun _ => (1 : ℚ) / 2) 0 2
    (fun a b => if a = b then 0 else 1)
    { variant := Variant.AS, nAnts := 1, nIters := 1, alpha := 1,
      beta := 0, rho := 0, q0 := 9 / 10, tauMinOpt := none,
      tauMaxOpt := none, eliteWeight := 6, nElite := 5,
      localSearch := false } _ _ rfl rfl).1

end ACO
